import Mathlib

/-!
Verification of the ochm-thumbnails repository: a shallow embedding of the
layout / text-fit arithmetic (`ThumbnailCanvas`), the quadrant pan/zoom clamp
(`QuadrantImage`), the tRPC routers (`art`, `deck`, `scryfall`) and the
page-level handlers, together with theorems settling the frozen claims.

JavaScript strings are modelled as `List Char` (`JSStr`); pixel arithmetic
uses `ℚ` (IEEE doubles behave exactly on the small integral values involved,
and the algorithms are stated over exact arithmetic); database rows are lists
of records, with Prisma `upsert` on a `@unique` column embedded as
match-update-or-append.
-/

/-- JavaScript strings, modelled as their character lists. -/
abbrev JSStr := List Char

namespace OCHM

/-! ## Database models (prisma/schema.prisma, part_000)

`CardArtUsage` has `scryfallArtUrl String @unique`, `Deck` has
`name String @unique`.  Prisma `upsert` on the unique key updates the
matching row with the `update` payload when one exists, otherwise inserts
the `create` payload.  Timestamps are modelled as naturals supplied by the
caller (the `new Date()` / `@updatedAt` value at call time). -/

/-- A `CardArtUsage` row (id omitted; it is never read). -/
structure ArtRec where
  scryfallCardId : String
  scryfallArtUrl : String
  lastUsedAt : Nat
  createdAt : Nat
deriving DecidableEq, Repr

/-- Embedding of `recordArtUsage` (src/server/api/routers/art.ts): Prisma
`cardArtUsage.upsert` keyed on the unique `scryfallArtUrl`; the update
payload sets `scryfallCardId` and `lastUsedAt`, the create payload inserts
a fresh row. -/
def recordArtUsage (db : List ArtRec) (scryfallCardId scryfallArtUrl : String)
    (now : Nat) : List ArtRec :=
  if db.any (fun r => r.scryfallArtUrl = scryfallArtUrl) then
    db.map (fun r =>
      if r.scryfallArtUrl = scryfallArtUrl then
        { r with scryfallCardId := scryfallCardId, lastUsedAt := now }
      else r)
  else
    db ++ [{ scryfallCardId := scryfallCardId, scryfallArtUrl := scryfallArtUrl,
             lastUsedAt := now, createdAt := now }]

/-- A `Deck` row. -/
structure DeckRec where
  id : String
  name : String
  lastUsedAt : Nat
  createdAt : Nat
deriving DecidableEq, Repr

/-- Embedding of `saveOrUpdateDeckName` (src/server/api/routers/deck.ts): Prisma
`deck.upsert` keyed on the unique `name`; the update payload sets only
`lastUsedAt`, the create payload inserts a fresh row (with a fresh cuid,
supplied here as `newId`). -/
def saveOrUpdateDeckName (db : List DeckRec) (name : String)
    (newId : String) (now : Nat) : List DeckRec :=
  if db.any (fun r => r.name = name) then
    db.map (fun r => if r.name = name then { r with lastUsedAt := now } else r)
  else
    db ++ [{ id := newId, name := name, lastUsedAt := now, createdAt := now }]

/-- artUrl-uniqueness invariant of the `CardArtUsage` table. -/
def artUrlsUnique (db : List ArtRec) : Prop :=
  db.Pairwise (fun a b => a.scryfallArtUrl ≠ b.scryfallArtUrl)

lemma countP_map_upsert (db : List ArtRec) (cid url : String) (t : Nat) :
    (db.map (fun r =>
      if r.scryfallArtUrl = url then
        { r with scryfallCardId := cid, lastUsedAt := t }
      else r)).countP (fun r => r.scryfallArtUrl = url) =
    db.countP (fun r => r.scryfallArtUrl = url) := by
  induction db with
  | nil => rfl
  | cons r rest ih =>
    by_cases h : r.scryfallArtUrl = url <;>
      simp [List.countP_cons, h, ih]

lemma recordArtUsage_count (db : List ArtRec) (cid url : String) (t : Nat) :
    (recordArtUsage db cid url t).countP (fun r => r.scryfallArtUrl = url) =
      if db.any (fun r => r.scryfallArtUrl = url) then
        db.countP (fun r => r.scryfallArtUrl = url)
      else db.countP (fun r => r.scryfallArtUrl = url) + 1 := by
  unfold recordArtUsage
  by_cases h : db.any (fun r => r.scryfallArtUrl = url)
  · rw [if_pos h, if_pos h]
    exact countP_map_upsert db cid url t
  · rw [if_neg h, if_neg h]
    simp [List.countP_append, List.countP_cons]

lemma any_recordArtUsage (db : List ArtRec) (cid url : String) (t : Nat) :
    (recordArtUsage db cid url t).any (fun r => r.scryfallArtUrl = url) = true := by
  unfold recordArtUsage
  by_cases h : db.any (fun r => r.scryfallArtUrl = url)
  · rw [if_pos h]
    rw [List.any_eq_true] at h ⊢
    obtain ⟨r, hr, hru⟩ := h
    simp only [decide_eq_true_eq] at hru
    exact ⟨_, List.mem_map_of_mem _ hr, by simp [hru]⟩
  · rw [if_neg h]
    simp

lemma countP_eq_one_of_unique_any (db : List ArtRec) (url : String)
    (hu : artUrlsUnique db)
    (h : db.any (fun r => r.scryfallArtUrl = url) = true) :
    db.countP (fun r => r.scryfallArtUrl = url) = 1 := by
  unfold artUrlsUnique at hu
  induction db with
  | nil => simp at h
  | cons r rest ih =>
    rw [List.pairwise_cons] at hu
    by_cases hr : r.scryfallArtUrl = url
    · have hzero : rest.countP (fun r => r.scryfallArtUrl = url) = 0 := by
        rw [List.countP_eq_zero]
        intro a ha
        simp only [decide_eq_true_eq]
        intro hcontra
        exact hu.1 a ha (hr.trans hcontra.symm)
      simp [List.countP_cons, hr, hzero]
    · have hrest : rest.any (fun r => r.scryfallArtUrl = url) = true := by
        rw [List.any_cons] at h
        simpa [hr] using h
      simp [List.countP_cons, hr, ih hu.2 hrest]

lemma recordArtUsage_eq_map (db : List ArtRec) (cid url : String) (t : Nat)
    (h : db.any (fun r => r.scryfallArtUrl = url) = true) :
    recordArtUsage db cid url t = db.map (fun r =>
      if r.scryfallArtUrl = url then
        { r with scryfallCardId := cid, lastUsedAt := t }
      else r) := by
  unfold recordArtUsage
  rw [if_pos h]

lemma artUrlsUnique_recordArtUsage (db : List ArtRec) (cid url : String) (t : Nat)
    (hu : artUrlsUnique db) : artUrlsUnique (recordArtUsage db cid url t) := by
  unfold artUrlsUnique at *
  unfold recordArtUsage
  have hf : ∀ r : ArtRec,
      ((if r.scryfallArtUrl = url then
          { r with scryfallCardId := cid, lastUsedAt := t }
        else r) : ArtRec).scryfallArtUrl = r.scryfallArtUrl := by
    intro r
    by_cases hr : r.scryfallArtUrl = url <;> simp [hr]
  by_cases h : db.any (fun r => r.scryfallArtUrl = url)
  · rw [if_pos h]
    refine List.Pairwise.map _ (fun a b hab => ?_) hu
    simpa [hf a, hf b] using hab
  · rw [if_neg h]
    rw [List.pairwise_append]
    refine ⟨hu, List.pairwise_singleton _ _, fun a ha b hb => ?_⟩
    rw [List.mem_singleton] at hb
    subst hb
    simp only [ne_eq]
    intro hcontra
    rw [List.any_eq_true] at h
    exact h ⟨a, ha, by simp [hcontra]⟩

/-- Claim C4: Upserting an `ArtUsageRecord` is idempotent with respect to record
count: calling `recordArtUsage` twice with the same `(artUrl, cardId)` (at
timestamps `t1` then `t2`) leaves exactly one record for that `artUrl`, that
record's `lastUsedAt` is the later call's timestamp `t2`, and `artUrl` remains
globally unique across the table. -/
theorem recordArtUsage_idempotent_count (db : List ArtRec) (cid url : String)
    (t1 t2 : Nat) (hu : artUrlsUnique db) :
    ((recordArtUsage (recordArtUsage db cid url t1) cid url t2).countP
        (fun r => r.scryfallArtUrl = url) = 1) ∧
    (∀ r ∈ recordArtUsage (recordArtUsage db cid url t1) cid url t2,
        r.scryfallArtUrl = url → r.lastUsedAt = t2) ∧
    artUrlsUnique (recordArtUsage (recordArtUsage db cid url t1) cid url t2) := by
  have hu1 : artUrlsUnique (recordArtUsage db cid url t1) :=
    artUrlsUnique_recordArtUsage db cid url t1 hu
  have hany1 : (recordArtUsage db cid url t1).any
      (fun r => r.scryfallArtUrl = url) = true :=
    any_recordArtUsage db cid url t1
  refine ⟨?_, ?_, artUrlsUnique_recordArtUsage _ cid url t2 hu1⟩
  · rw [recordArtUsage_count, if_pos hany1]
    exact countP_eq_one_of_unique_any _ url hu1 hany1
  · intro r hr hru
    rw [recordArtUsage_eq_map _ cid url t2 hany1] at hr
    rw [List.mem_map] at hr
    obtain ⟨r0, _, hr0⟩ := hr
    by_cases h0 : r0.scryfallArtUrl = url
    · rw [if_pos h0] at hr0
      rw [← hr0]
    · rw [if_neg h0] at hr0
      subst hr0
      exact absurd hru h0

/-- Claim C5: For a deck name already present, `saveOrUpdateDeckName` keeps the
row count and, row by row, preserves `id`, `name` and `createdAt`; only the
matching row's `lastUsedAt` changes (to `now`), all other rows are unchanged. -/
theorem saveOrUpdateDeckName_frame (db : List DeckRec) (name newId : String)
    (now : Nat) (h : db.any (fun r => r.name = name) = true) :
    ((saveOrUpdateDeckName db name newId now).length = db.length) ∧
    List.Forall₂ (fun r r' : DeckRec =>
        r'.id = r.id ∧ r'.name = r.name ∧ r'.createdAt = r.createdAt ∧
        r'.lastUsedAt = (if r.name = name then now else r.lastUsedAt))
      db (saveOrUpdateDeckName db name newId now) := by
  unfold saveOrUpdateDeckName
  rw [if_pos h]
  refine ⟨List.length_map _ _, ?_⟩
  rw [List.forall₂_map_right_iff, List.forall₂_same]
  intro r _
  by_cases hr : r.name = name <;> simp [hr]

/-- A concrete one-row `CardArtUsage` table for witnesses. -/
def sampleArtDb : List ArtRec :=
  [{ scryfallCardId := "c0", scryfallArtUrl := "u0", lastUsedAt := 0, createdAt := 0 }]

/-- A concrete one-row `Deck` table for witnesses. -/
def sampleDeckDb : List DeckRec :=
  [{ id := "i0", name := "Burn", lastUsedAt := 0, createdAt := 0 }]

/-- Witness for `recordArtUsage_idempotent_count` at a concrete one-row table. -/
theorem recordArtUsage_idempotent_count_witness :
    artUrlsUnique sampleArtDb ∧
    (((recordArtUsage (recordArtUsage sampleArtDb "c1" "u1" 1)
          "c1" "u1" 2).countP (fun r => r.scryfallArtUrl = "u1") = 1) ∧
      (∀ r ∈ recordArtUsage (recordArtUsage sampleArtDb "c1" "u1" 1)
          "c1" "u1" 2, r.scryfallArtUrl = "u1" → r.lastUsedAt = 2) ∧
      artUrlsUnique (recordArtUsage (recordArtUsage sampleArtDb "c1" "u1" 1)
          "c1" "u1" 2)) :=
  ⟨List.pairwise_singleton _ _,
   recordArtUsage_idempotent_count sampleArtDb "c1" "u1" 1 2
     (List.pairwise_singleton _ _)⟩

/-- Witness for `saveOrUpdateDeckName_frame` at a concrete one-row table. -/
theorem saveOrUpdateDeckName_frame_witness :
    (sampleDeckDb.any (fun r => r.name = "Burn") = true) ∧
    ((saveOrUpdateDeckName sampleDeckDb "Burn" "i9" 7).length = sampleDeckDb.length) ∧
    List.Forall₂ (fun r r' : DeckRec =>
        r'.id = r.id ∧ r'.name = r.name ∧ r'.createdAt = r.createdAt ∧
        r'.lastUsedAt = (if r.name = "Burn" then 7 else r.lastUsedAt))
      sampleDeckDb (saveOrUpdateDeckName sampleDeckDb "Burn" "i9" 7) := by
  refine ⟨by decide, ?_, ?_⟩
  · exact (saveOrUpdateDeckName_frame sampleDeckDb "Burn" "i9" 7 (by decide)).1
  · exact (saveOrUpdateDeckName_frame sampleDeckDb "Burn" "i9" 7 (by decide)).2

/-! ## Strings split on a single space

JavaScript `str.split(' ')` splits at every single space character and keeps
empty pieces; this is shared by the word wrap of `calculateTextHeight`
(part_001) and `toPascalCase` (part_006). -/

/-- Embedding of `str.split(' ')` on a character list: splits at every space, keeping
empty pieces (`"".split(' ') = [""]`, `"a  b".split(' ') = ["a","","b"]`). -/
def splitOnSpace : JSStr → List JSStr
  | [] => [[]]
  | c :: cs =>
    if c = ' ' then [] :: splitOnSpace cs
    else
      match splitOnSpace cs with
      | [] => [[c]]
      | w :: ws => (c :: w) :: ws

lemma splitOnSpace_ne_nil (cs : JSStr) : splitOnSpace cs ≠ [] := by
  induction cs with
  | nil => simp [splitOnSpace]
  | cons c cs ih =>
    unfold splitOnSpace
    by_cases h : c = ' '
    · simp [h]
    · rw [if_neg h]
      match hm : splitOnSpace cs with
      | [] => simp
      | w :: ws => simp

lemma splitOnSpace_space_free (cs : JSStr) :
    ∀ w ∈ splitOnSpace cs, ' ' ∉ w := by
  induction cs with
  | nil => simp [splitOnSpace]
  | cons c cs ih =>
    intro w hw
    unfold splitOnSpace at hw
    by_cases h : c = ' '
    · rw [if_pos h] at hw
      rcases List.mem_cons.mp hw with h1 | h2
      · subst h1; simp
      · exact ih w h2
    · rw [if_neg h] at hw
      rcases hm : splitOnSpace cs with _ | ⟨w0, ws⟩
      · exact absurd hm (splitOnSpace_ne_nil cs)
      · rw [hm] at hw
        rcases List.mem_cons.mp hw with h1 | h2
        · subst h1
          intro hc
          rcases List.mem_cons.mp hc with h3 | h4
          · exact h h3.symm
          · exact ih w0 (by rw [hm]; exact List.mem_cons_self _ _) h4
        · exact ih w (by rw [hm]; exact List.mem_cons_of_mem _ h2)

/-! ## `toPascalCase` and the download filename (part_006, `handleDownload`) -/

/-- JS `\w` for ASCII input: `[A-Za-z0-9_]`. -/
def isWordChar (c : Char) : Bool :=
  ('a' ≤ c && c ≤ 'z') || ('A' ≤ c && c ≤ 'Z') || ('0' ≤ c && c ≤ '9') || c = '_'

/-- Embedding of `.replace(/[^\w\s-]/gi, '')`: drop every character that is not a word
character, whitespace, or a hyphen. -/
def stripSpecial (s : JSStr) : JSStr :=
  s.filter (fun c => isWordChar c || c.isWhitespace || c = '-')

/-- Scanner state for `collapseRuns`: whether the scan is inside a
whitespace run, inside a hyphen run, or in neither. -/
inductive RunState
  | outside
  | inWs
  | inHy
deriving DecidableEq, Repr

/-- Single left-to-right pass realising the global replace: the first
character of a whitespace (resp. hyphen) run emits one `' '`, later
characters of the same run emit nothing. -/
def collapseRunsAux : RunState → JSStr → JSStr
  | _, [] => []
  | st, c :: cs =>
    if c.isWhitespace then
      match st with
      | .inWs => collapseRunsAux .inWs cs
      | _ => ' ' :: collapseRunsAux .inWs cs
    else if c = '-' then
      match st with
      | .inHy => collapseRunsAux .inHy cs
      | _ => ' ' :: collapseRunsAux .inHy cs
    else c :: collapseRunsAux .outside cs

/-- Embedding of `.replace(/\s+|-+/g, ' ')`: each maximal run of whitespace and each
maximal run of hyphens becomes a single space. -/
def collapseRuns (s : JSStr) : JSStr :=
  collapseRunsAux .outside s

/-- Embedding of `word.charAt(0).toUpperCase() + word.slice(1).toLowerCase()`. -/
def capitalizeWord : JSStr → JSStr
  | [] => []
  | c :: cs => c.toUpper :: cs.map Char.toLower

/-- Embedding of `toPascalCase` (part_006): strip specials, collapse whitespace/hyphen
runs to single spaces, split on spaces, capitalize each word, join. -/
def toPascalCase (s : JSStr) : JSStr :=
  ((splitOnSpace (collapseRuns (stripSpecial s))).map capitalizeWord).flatten

/-- The two thumbnail modes (`ThumbnailType` in page.tsx). -/
inductive ThumbnailType
  | Video
  | Stream
deriving DecidableEq, Repr

/-- The download filename computed by `handleDownload` (part_006):
`Livestream-<date with / replaced by -> .png` in `Stream` mode (with
`NoDate` when the date is empty), `<PascalLeft>Vs<PascalRight>.png` in
`Video` mode (with `Deck1`/`Deck2` fallbacks for empty names). -/
def downloadFileName (thumbnailType : ThumbnailType)
    (streamDate leftDeckName rightDeckName : JSStr) : JSStr :=
  match thumbnailType with
  | .Stream =>
    let replaced := streamDate.map (fun c => if c = '/' then '-' else c)
    let formattedDate := if replaced = [] then "NoDate".toList else replaced
    "Livestream-".toList ++ formattedDate ++ ".png".toList
  | .Video =>
    let pascalLeft := toPascalCase
      (if leftDeckName = [] then "Deck1".toList else leftDeckName)
    let pascalRight := toPascalCase
      (if rightDeckName = [] then "Deck2".toList else rightDeckName)
    pascalLeft ++ "Vs".toList ++ pascalRight ++ ".png".toList

/-- Claim C6: The export filename is `Livestream-<date-with-hyphens>.png` in
`Stream` mode (for a nonempty date), `<LeftPascal>Vs<RightPascal>.png` in
`Video` mode (for nonempty deck names); in particular left "Mono Red" and
right "Azorius Control" in `Video` mode produce `MonoRedVsAzoriusControl.png`. -/
theorem downloadFileName_spec (streamDate l r : JSStr)
    (hd : streamDate ≠ []) (hl : l ≠ []) (hr : r ≠ []) :
    (downloadFileName .Stream streamDate l r =
      "Livestream-".toList ++
        streamDate.map (fun c => if c = '/' then '-' else c) ++ ".png".toList) ∧
    (downloadFileName .Video streamDate l r =
      toPascalCase l ++ "Vs".toList ++ toPascalCase r ++ ".png".toList) ∧
    (downloadFileName .Video "10/11/26".toList "Mono Red".toList
        "Azorius Control".toList = "MonoRedVsAzoriusControl.png".toList) := by
  refine ⟨?_, ?_, by decide⟩
  · unfold downloadFileName
    have : streamDate.map (fun c => if c = '/' then '-' else c) ≠ [] := by
      simpa using hd
    simp only [if_neg this]
  · unfold downloadFileName
    simp only [if_neg hl, if_neg hr]

/-- Witness for `downloadFileName_spec` at concrete inputs. -/
theorem downloadFileName_spec_witness :
    ("10/11/26".toList ≠ ([] : JSStr)) ∧
    ((downloadFileName .Stream "10/11/26".toList "Mono Red".toList
        "Azorius Control".toList =
      "Livestream-".toList ++
        ("10/11/26".toList.map (fun c => if c = '/' then '-' else c)) ++
        ".png".toList) ∧
     (downloadFileName .Video "10/11/26".toList "Mono Red".toList
        "Azorius Control".toList =
      toPascalCase "Mono Red".toList ++ "Vs".toList ++
        toPascalCase "Azorius Control".toList ++ ".png".toList) ∧
     (downloadFileName .Video "10/11/26".toList "Mono Red".toList
        "Azorius Control".toList = "MonoRedVsAzoriusControl.png".toList)) :=
  ⟨by decide,
   downloadFileName_spec "10/11/26".toList "Mono Red".toList
     "Azorius Control".toList (by decide) (by decide) (by decide)⟩

/-! ## `proxyImage` (src/server/api/routers/scryfall.ts)

The network is modelled by a `FetchEnv` describing what the two fetches
(HEAD for headers, GET for the body) would do; `proxyImage` is the
deterministic control flow of the handler over that environment.  tRPC
error codes are the typed failures of the claim. -/

/-- The tRPC error codes used by `proxyImage`. -/
inductive TrpcCode
  | BAD_REQUEST
  | PAYLOAD_TOO_LARGE
  | TIMEOUT
  | INTERNAL_SERVER_ERROR
deriving DecidableEq, Repr

/-- A typed failure: error code plus the point of failure. -/
inductive ProxyFailure
  | disallowedDomain
  | headFetchFailed
  | headerTooLarge
  | dataFetchFailed
  | bodyTooLarge
  | timedOut
deriving DecidableEq, Repr

/-- The error code attached to each failure in the source. -/
def ProxyFailure.code : ProxyFailure → TrpcCode
  | .disallowedDomain => .BAD_REQUEST
  | .headFetchFailed => .INTERNAL_SERVER_ERROR
  | .headerTooLarge => .PAYLOAD_TOO_LARGE
  | .dataFetchFailed => .INTERNAL_SERVER_ERROR
  | .bodyTooLarge => .PAYLOAD_TOO_LARGE
  | .timedOut => .TIMEOUT

/-- What the upstream would do for the requested URL: the parsed hostname,
whether each fetch aborts on the 5s timeout, whether each response is ok,
the advertised `content-length`, the downloaded body length, and the
`content-type` header. -/
structure FetchEnv where
  hostname : String
  headTimesOut : Bool
  headOk : Bool
  contentLength : Option Nat
  dataTimesOut : Bool
  dataOk : Bool
  bodyByteLength : Nat
  contentType : Option String
deriving Repr

/-- Embedding of `ALLOWED_IMAGE_DOMAINS` (scryfall.ts). -/
def ALLOWED_IMAGE_DOMAINS : List String :=
  ["cards.scryfall.io", "c1.scryfall.com", "svgs.scryfall.io"]

/-- Embedding of `MAX_IMAGE_SIZE_BYTES = 10 * 1024 * 1024`. -/
def MAX_IMAGE_SIZE_BYTES : Nat := 10 * 1024 * 1024

/-- Embedding of `proxyImage` (scryfall.ts): allow-list check, HEAD fetch with timeout,
content-length precheck, GET fetch with timeout, post-download size
recheck, then the base64 data URL (body bytes abstracted to their length;
the success value records the content type actually used). -/
def proxyImage (env : FetchEnv) : Except ProxyFailure (String × Nat) :=
  if ¬ (ALLOWED_IMAGE_DOMAINS.contains env.hostname) then
    .error .disallowedDomain
  else if env.headTimesOut then
    .error .timedOut
  else if ¬ env.headOk then
    .error .headFetchFailed
  else if (match env.contentLength with
           | some n => decide (n > MAX_IMAGE_SIZE_BYTES)
           | none => false) then
    .error .headerTooLarge
  else if env.dataTimesOut then
    .error .timedOut
  else if ¬ env.dataOk then
    .error .dataFetchFailed
  else if env.bodyByteLength > MAX_IMAGE_SIZE_BYTES then
    .error .bodyTooLarge
  else
    .ok (env.contentType.getD "image/jpeg", env.bodyByteLength)

/-- Claim C7: `proxyImage` accepts only allow-listed hostnames, rejecting all
others as a `BAD_REQUEST` disallowed-domain failure; an advertised
content-length over the 10MB cap is rejected at the header check and an
oversized downloaded payload at the recheck, both as `PAYLOAD_TOO_LARGE`;
a fetch hitting the 5s timeout surfaces as a `TIMEOUT` failure; and any
success implies the hostname was allow-listed and the payload within the
cap. -/
theorem proxyImage_validation (env : FetchEnv) :
    (¬ ALLOWED_IMAGE_DOMAINS.contains env.hostname →
      proxyImage env = .error .disallowedDomain ∧
      ProxyFailure.disallowedDomain.code = .BAD_REQUEST) ∧
    (ALLOWED_IMAGE_DOMAINS.contains env.hostname →
      ¬ env.headTimesOut → env.headOk →
      (∀ n, env.contentLength = some n → n > MAX_IMAGE_SIZE_BYTES →
        proxyImage env = .error .headerTooLarge ∧
        ProxyFailure.headerTooLarge.code = .PAYLOAD_TOO_LARGE)) ∧
    (ALLOWED_IMAGE_DOMAINS.contains env.hostname →
      ¬ env.headTimesOut → env.headOk →
      (match env.contentLength with
       | some n => n ≤ MAX_IMAGE_SIZE_BYTES
       | none => True) →
      ¬ env.dataTimesOut → env.dataOk →
      env.bodyByteLength > MAX_IMAGE_SIZE_BYTES →
      proxyImage env = .error .bodyTooLarge ∧
      ProxyFailure.bodyTooLarge.code = .PAYLOAD_TOO_LARGE) ∧
    (ALLOWED_IMAGE_DOMAINS.contains env.hostname → env.headTimesOut →
      proxyImage env = .error .timedOut ∧
      ProxyFailure.timedOut.code = .TIMEOUT) ∧
    (∀ v, proxyImage env = .ok v →
      ALLOWED_IMAGE_DOMAINS.contains env.hostname = true ∧
      env.bodyByteLength ≤ MAX_IMAGE_SIZE_BYTES) := by
  refine ⟨?_, ?_, ?_, ?_, ?_⟩
  · intro h
    refine ⟨?_, rfl⟩
    unfold proxyImage
    rw [if_pos h]
  · intro hdom hht hok n hcl hbig
    refine ⟨?_, rfl⟩
    unfold proxyImage
    rw [if_neg (by simpa using hdom), if_neg (by simpa using hht),
      if_neg (by simpa using hok)]
    rw [if_pos (by rw [hcl]; simpa using hbig)]
  · intro hdom hht hok hcl hdt hdok hbig
    refine ⟨?_, rfl⟩
    unfold proxyImage
    rw [if_neg (by simpa using hdom), if_neg (by simpa using hht),
      if_neg (by simpa using hok)]
    rw [if_neg ?_, if_neg (by simpa using hdt), if_neg (by simpa using hdok),
      if_pos hbig]
    revert hcl
    cases env.contentLength with
    | none => intro _; simp
    | some n => intro hcl; simpa using Nat.not_lt.mpr hcl
  · intro hdom hht
    refine ⟨?_, rfl⟩
    unfold proxyImage
    rw [if_neg (by simpa using hdom), if_pos hht]
  · intro v hv
    unfold proxyImage at hv
    by_cases hdom : ALLOWED_IMAGE_DOMAINS.contains env.hostname
    · refine ⟨hdom, ?_⟩
      rw [if_neg (by simpa using hdom)] at hv
      by_cases h1 : env.headTimesOut
      · rw [if_pos h1] at hv; exact absurd hv (by simp)
      · rw [if_neg h1] at hv
        by_cases h2 : env.headOk
        · rw [if_neg (by simpa using h2)] at hv
          by_cases h3 : (match env.contentLength with
              | some n => decide (n > MAX_IMAGE_SIZE_BYTES)
              | none => false) = true
          · rw [if_pos h3] at hv; exact absurd hv (by simp)
          · rw [if_neg h3] at hv
            by_cases h4 : env.dataTimesOut
            · rw [if_pos h4] at hv; exact absurd hv (by simp)
            · rw [if_neg h4] at hv
              by_cases h5 : env.dataOk
              · rw [if_neg (by simpa using h5)] at hv
                by_cases h6 : env.bodyByteLength > MAX_IMAGE_SIZE_BYTES
                · rw [if_pos h6] at hv; exact absurd hv (by simp)
                · exact Nat.not_lt.mp h6
              · rw [if_pos (by simpa using h5)] at hv
                exact absurd hv (by simp)
        · rw [if_pos (by simpa using h2)] at hv
          exact absurd hv (by simp)
    · rw [if_pos (by simpa using hdom)] at hv
      exact absurd hv (by simp)

/-- A concrete environment: disallowed hostname. -/
def envDisallowed : FetchEnv :=
  { hostname := "evil.example.com", headTimesOut := false, headOk := true,
    contentLength := some 1000, dataTimesOut := false, dataOk := true,
    bodyByteLength := 1000, contentType := some "image/jpeg" }

/-- Witness for `proxyImage_validation`: the disallowed-domain clause fires
on a concrete environment. -/
theorem proxyImage_validation_witness :
    (¬ ALLOWED_IMAGE_DOMAINS.contains envDisallowed.hostname) ∧
    proxyImage envDisallowed = .error .disallowedDomain ∧
    ProxyFailure.disallowedDomain.code = .BAD_REQUEST :=
  ⟨by decide, (proxyImage_validation envDisallowed).1 (by decide)⟩

/-! ## Upstream-error handling of the list endpoints (C8)

`autocompleteCardName` / `getCardArts` (scryfall.ts) and
`autocompleteDeckName` (deck.ts) each wrap their upstream call in
try/catch and return `[]` from every non-success branch; the upstream
outcome is modelled as an explicit sum, the thrown-exception branch
included, so the handlers are total functions into lists. -/

/-- What a guarded upstream call can produce: the fetch (or JSON parse, or
db query) threw, the response was non-2xx, the payload was a Scryfall
error object, or a well-formed payload arrived. -/
inductive UpstreamOutcome (α : Type)
  | fetchThrew
  | httpError (status : Nat)
  | apiError (details : String)
  | success (payload : α)

/-- Embedding of `autocompleteCardName` (scryfall.ts): empty query short-circuits to
`[]`; non-2xx, error payloads and thrown fetches all return `[]`; a
catalog payload returns its `data`. -/
def autocompleteCardName (query : String)
    (resp : UpstreamOutcome (List String)) : List String :=
  if query = "" then []
  else
    match resp with
    | .success names => names
    | .fetchThrew => []
    | .httpError _ => []
    | .apiError _ => []

/-- Scryfall `image_uris` (only `art_crop` is read). -/
structure ImageUris where
  art_crop : Option String
deriving Repr

/-- A card face as read by `getCardArts`. -/
structure CardFace where
  artist : Option String
  image_uris : Option ImageUris
deriving Repr

/-- A Scryfall card object as read by `getCardArts`. -/
structure ScryfallCardObj where
  id : String
  set : String
  artist : Option String
  image_uris : Option ImageUris
  card_faces : Option (List CardFace)
deriving Repr

/-- One art option returned by `getCardArts`. -/
structure SelectedArt where
  artUrl : String
  setCode : String
  scryfallPrintId : String
  artist : Option String
deriving DecidableEq, Repr

/-- The per-card step of `getCardArts`'s collection loop: push the card's
`art_crop` (if unseen), then each face's `art_crop` (if unseen), recording
seen URLs. -/
def collectCard (acc : List SelectedArt × List String) (card : ScryfallCardObj) :
    List SelectedArt × List String :=
  let first :=
    match card.image_uris with
    | some uris =>
      match uris.art_crop with
      | some url =>
        if acc.2.contains url then acc
        else (acc.1 ++ [{ artUrl := url, setCode := card.set.toUpper,
                          scryfallPrintId := card.id, artist := card.artist }],
              acc.2 ++ [url])
      | none => acc
    | none => acc
  match card.card_faces with
  | some faces =>
    faces.foldl (fun a face =>
      match face.image_uris with
      | some uris =>
        match uris.art_crop with
        | some url =>
          if a.2.contains url then a
          else (a.1 ++ [{ artUrl := url, setCode := card.set.toUpper,
                          scryfallPrintId := card.id,
                          artist := face.artist.orElse (fun _ => card.artist) }],
                a.2 ++ [url])
        | none => a
      | none => a) first
  | none => first

/-- Embedding of `getCardArts` (scryfall.ts): empty card name short-circuits to `[]`;
every upstream error returns `[]`; a search payload is folded through
`collectCard` (deduplicating by `artUrl`). -/
def getCardArts (cardName : String)
    (resp : UpstreamOutcome (List ScryfallCardObj)) : List SelectedArt :=
  if cardName = "" then []
  else
    match resp with
    | .success cards => (cards.foldl collectCard ([], [])).1
    | .fetchThrew => []
    | .httpError _ => []
    | .apiError _ => []

/-- What the Prisma deck query can produce (the catch block turns a thrown
query into `[]`). -/
inductive DbOutcome (α : Type)
  | threw
  | success (rows : α)

/-- Embedding of `autocompleteDeckName` (deck.ts): empty query short-circuits to `[]`;
a thrown db query returns `[]`; otherwise the rows (name, lastUsedAt). -/
def autocompleteDeckName (query : String)
    (res : DbOutcome (List (String × Nat))) : List (String × Nat) :=
  if query = "" then []
  else
    match res with
    | .success rows => rows
    | .threw => []

/-- Claim C8: For every upstream-API error (thrown fetch/parse, non-2xx
status, error payload) the card-name autocomplete, the card-art search and
the deck-name autocomplete each return the empty list; being total Lean
functions into `List`, none of them propagates an exception. -/
theorem upstream_errors_yield_empty
    (q n dq : String)
    (r1 : UpstreamOutcome (List String))
    (r2 : UpstreamOutcome (List ScryfallCardObj))
    (r3 : DbOutcome (List (String × Nat)))
    (h1 : ∀ d, r1 ≠ .success d) (h2 : ∀ d, r2 ≠ .success d)
    (h3 : ∀ d, r3 ≠ .success d) :
    autocompleteCardName q r1 = [] ∧ getCardArts n r2 = [] ∧
    autocompleteDeckName dq r3 = [] := by
  refine ⟨?_, ?_, ?_⟩
  · unfold autocompleteCardName
    by_cases hq : q = ""
    · rw [if_pos hq]
    · rw [if_neg hq]
      cases r1 with
      | success d => exact absurd rfl (h1 d)
      | fetchThrew => rfl
      | httpError s => rfl
      | apiError d => rfl
  · unfold getCardArts
    by_cases hn : n = ""
    · rw [if_pos hn]
    · rw [if_neg hn]
      cases r2 with
      | success d => exact absurd rfl (h2 d)
      | fetchThrew => rfl
      | httpError s => rfl
      | apiError d => rfl
  · unfold autocompleteDeckName
    by_cases hq : dq = ""
    · rw [if_pos hq]
    · rw [if_neg hq]
      cases r3 with
      | success d => exact absurd rfl (h3 d)
      | threw => rfl

/-- Witness for `upstream_errors_yield_empty` at concrete error outcomes. -/
theorem upstream_errors_yield_empty_witness :
    ((∀ d, (UpstreamOutcome.httpError 500 : UpstreamOutcome (List String)) ≠
        .success d) ∧
     (∀ d, (UpstreamOutcome.fetchThrew : UpstreamOutcome (List ScryfallCardObj)) ≠
        .success d) ∧
     (∀ d, (DbOutcome.threw : DbOutcome (List (String × Nat))) ≠ .success d)) ∧
    (autocompleteCardName "bolt" (.httpError 500) = [] ∧
     getCardArts "Sol Ring" .fetchThrew = [] ∧
     autocompleteDeckName "burn" .threw = []) := by
  have e1 : ∀ d, (UpstreamOutcome.httpError 500 : UpstreamOutcome (List String)) ≠
      .success d := fun d h => nomatch h
  have e2 : ∀ d, (UpstreamOutcome.fetchThrew :
      UpstreamOutcome (List ScryfallCardObj)) ≠ .success d := fun d h => nomatch h
  have e3 : ∀ d, (DbOutcome.threw : DbOutcome (List (String × Nat))) ≠
      .success d := fun d h => nomatch h
  refine ⟨⟨e1, e2, e3⟩, ?_⟩
  exact upstream_errors_yield_empty "bolt" "Sol Ring" "burn"
    (.httpError 500) .fetchThrew .threw e1 e2 e3

/-! ## Page state: art-selection effect (part_006, C10) -/

/-- The four quadrant slots. -/
inductive CardSlot
  | topLeft
  | bottomLeft
  | topRight
  | bottomRight
deriving DecidableEq, Repr

/-- Per-slot card state. -/
structure CardState where
  name : String
  artUrl : Option String
  scryfallCardId : Option String
deriving DecidableEq, Repr

/-- Embedding of `initialCardState` (part_006). -/
def initialCardState : CardState :=
  { name := "", artUrl := none, scryfallCardId := none }

/-- The slice of `HomePage` state the art-selection flow touches (the
usage-map bookkeeping, logo state and deck names are independent of it). -/
structure HomeState where
  cardStates : CardSlot → CardState
  isArtDialogOpen : Bool
  currentSlotForArtSelection : Option CardSlot
  artUrlsForSelection : List SelectedArt
  selectedCardNameForArt : String

/-- Embedding of `handleCardSelection` (part_006): reset the slot to a fresh card state
carrying the chosen name; a nonempty name arms the art query for that
slot, an empty name disarms everything and closes the dialog. -/
def handleCardSelection (st : HomeState) (slot : CardSlot) (cardName : String) :
    HomeState :=
  let st1 : HomeState :=
    { st with cardStates := fun s =>
        if s = slot then { initialCardState with name := cardName }
        else st.cardStates s }
  if cardName ≠ "" then
    { st1 with selectedCardNameForArt := cardName,
               currentSlotForArtSelection := some slot,
               artUrlsForSelection := [] }
  else
    { st1 with selectedCardNameForArt := "",
               currentSlotForArtSelection := none,
               artUrlsForSelection := [],
               isArtDialogOpen := false }

/-- The `cardArtsQuery` success effect (part_006): exactly one art option
is assigned directly to the armed slot (no dialog); two or more open the
selection dialog; zero resets the slot via `handleCardSelection`. -/
def cardArtsSuccessEffect (st : HomeState) (data : List SelectedArt) : HomeState :=
  if data.length = 1 then
    match st.currentSlotForArtSelection with
    | some slot =>
      match data[0]? with
      | some art =>
        { st with
          cardStates := fun s =>
            if s = slot then
              { st.cardStates slot with artUrl := some art.artUrl,
                                        scryfallCardId := some art.scryfallPrintId }
            else st.cardStates s,
          currentSlotForArtSelection := none,
          selectedCardNameForArt := "",
          artUrlsForSelection := [] }
      | none =>
        { st with currentSlotForArtSelection := none,
                  selectedCardNameForArt := "",
                  artUrlsForSelection := [] }
    | none => st
  else if data.length > 1 then
    let st1 : HomeState := { st with artUrlsForSelection := data }
    if st.currentSlotForArtSelection.isSome then
      { st1 with isArtDialogOpen := true }
    else st1
  else
    let st1 : HomeState := { st with artUrlsForSelection := [] }
    match st.currentSlotForArtSelection with
    | some slot => handleCardSelection st1 slot ""
    | none => st1

/-- Claim C10: When the card-art search returns exactly one option and a slot
is armed, that art is assigned directly to the slot and the dialog state is
untouched (in particular it is not opened); and the effect opens the dialog
only when it was already open or the search returned at least two options. -/
theorem cardArtsSuccessEffect_single_auto_assign
    (st : HomeState) (data : List SelectedArt) (slot : CardSlot)
    (art : SelectedArt) (hdata : data = [art])
    (hslot : st.currentSlotForArtSelection = some slot) :
    ((cardArtsSuccessEffect st data).cardStates slot =
      { st.cardStates slot with artUrl := some art.artUrl,
                                scryfallCardId := some art.scryfallPrintId } ∧
     (cardArtsSuccessEffect st data).isArtDialogOpen = st.isArtDialogOpen) ∧
    (∀ st' : HomeState, ∀ d : List SelectedArt,
      (cardArtsSuccessEffect st' d).isArtDialogOpen = true →
      st'.isArtDialogOpen = true ∨ 2 ≤ d.length) := by
  constructor
  · subst hdata
    unfold cardArtsSuccessEffect
    rw [if_pos (by simp), hslot]
    simp
  · intro st' d hopen
    unfold cardArtsSuccessEffect at hopen
    by_cases h1 : d.length = 1
    · rw [if_pos h1] at hopen
      cases hs : st'.currentSlotForArtSelection with
      | none => rw [hs] at hopen; exact Or.inl hopen
      | some slot' =>
        rw [hs] at hopen
        cases hd : d[0]? with
        | none => rw [hd] at hopen; exact Or.inl hopen
        | some a => rw [hd] at hopen; exact Or.inl hopen
    · rw [if_neg h1] at hopen
      by_cases h2 : d.length > 1
      · exact Or.inr h2
      · rw [if_neg h2] at hopen
        cases hs : st'.currentSlotForArtSelection with
        | none => rw [hs] at hopen; exact Or.inl hopen
        | some slot' =>
          rw [hs] at hopen
          unfold handleCardSelection at hopen
          simp at hopen

/-- A concrete page state with the top-left slot armed. -/
def sampleHomeState : HomeState :=
  { cardStates := fun _ => initialCardState,
    isArtDialogOpen := false,
    currentSlotForArtSelection := some .topLeft,
    artUrlsForSelection := [],
    selectedCardNameForArt := "Sol Ring" }

/-- A concrete single art option. -/
def sampleArt : SelectedArt :=
  { artUrl := "https://cards.scryfall.io/a.jpg", setCode := "LEA",
    scryfallPrintId := "p1", artist := some "Mark Tedin" }

/-- Witness for `cardArtsSuccessEffect_single_auto_assign` on a concrete
armed state with one art option. -/
theorem cardArtsSuccessEffect_single_auto_assign_witness :
    ([sampleArt] = [sampleArt] ∧
     sampleHomeState.currentSlotForArtSelection = some .topLeft) ∧
    (((cardArtsSuccessEffect sampleHomeState [sampleArt]).cardStates .topLeft =
        { sampleHomeState.cardStates .topLeft with
            artUrl := some sampleArt.artUrl,
            scryfallCardId := some sampleArt.scryfallPrintId } ∧
      (cardArtsSuccessEffect sampleHomeState [sampleArt]).isArtDialogOpen =
        sampleHomeState.isArtDialogOpen) ∧
     (∀ st' : HomeState, ∀ d : List SelectedArt,
       (cardArtsSuccessEffect st' d).isArtDialogOpen = true →
       st'.isArtDialogOpen = true ∨ 2 ≤ d.length)) :=
  ⟨⟨rfl, rfl⟩,
   cardArtsSuccessEffect_single_auto_assign sampleHomeState [sampleArt]
     .topLeft sampleArt rfl rfl⟩

/-! ## Quadrant pan/zoom clamp (part_005, `QuadrantImage`)

Positions, sizes and scales are rationals; the quadrant rectangle sits at
the group origin with size `width × height`; the image node has natural
size `img.w × img.h`, position `(x, y)` and uniform scale `scale`.  The
wheel factor 1.1 is embedded as `11/10` (the claims are order-theoretic
and hold for any factor). -/

/-- Natural dimensions of a loaded quadrant image. -/
structure ImgDims where
  w : ℚ
  h : ℚ
deriving DecidableEq, Repr

/-- Position and uniform scale of the image node inside its quadrant. -/
structure QuadState where
  x : ℚ
  y : ℚ
  scale : ℚ
deriving DecidableEq, Repr

/-- Embedding of `constrainPosition` (part_005): clamp each axis so the scaled image
covers the quadrant, then center an axis on which the image is smaller
than the quadrant. -/
def constrainPosition (width height newX newY scaledWidth scaledHeight : ℚ) :
    ℚ × ℚ :=
  let x1 := if 0 < newX then 0 else newX
  let x2 := if x1 + scaledWidth < width then width - scaledWidth else x1
  let y1 := if 0 < newY then 0 else newY
  let y2 := if y1 + scaledHeight < height then height - scaledHeight else y1
  let x3 := if scaledWidth < width then (width - scaledWidth) / 2 else x2
  let y3 := if scaledHeight < height then (height - scaledHeight) / 2 else y2
  (x3, y3)

/-- The initial cover-fit placement computed in the image `onload` handler:
the larger of the two fit scales, centering the other axis. -/
def initialQuadState (img : ImgDims) (width height : ℚ) : QuadState :=
  if width / height < img.w / img.h then
    let s := height / img.h
    { x := (width - img.w * s) / 2, y := 0, scale := s }
  else
    let s := width / img.w
    { x := 0, y := (height - img.h * s) / 2, scale := s }

/-- Embedding of `handleDragMove` (part_005): the user moved the node to `(nx, ny)`;
the position is immediately re-constrained at the unchanged scale. -/
def handleDragMove (img : ImgDims) (width height : ℚ) (st : QuadState)
    (nx ny : ℚ) : QuadState :=
  let scaledWidth := img.w * st.scale
  let scaledHeight := img.h * st.scale
  let p := constrainPosition width height nx ny scaledWidth scaledHeight
  { x := p.1, y := p.2, scale := st.scale }

/-- Embedding of `handleWheel` (part_005): zoom about the pointer by the factor 1.1,
floor the scale at the quadrant-covering minimum, then re-constrain the
position. -/
def handleWheel (img : ImgDims) (width height : ℚ) (st : QuadState)
    (px py : ℚ) (zoomOut : Bool) : QuadState :=
  let scaleBy : ℚ := 11 / 10
  let oldScale := st.scale
  let mouseX := (px - st.x) / oldScale
  let mouseY := (py - st.y) / oldScale
  let newScale := if zoomOut then oldScale / scaleBy else oldScale * scaleBy
  let minScaleX := width / img.w
  let minScaleY := height / img.h
  let actualMinScale := max minScaleX minScaleY
  let effectiveNewScale := max newScale actualMinScale
  let nx := px - mouseX * effectiveNewScale
  let ny := py - mouseY * effectiveNewScale
  let scaledWidth := img.w * effectiveNewScale
  let scaledHeight := img.h * effectiveNewScale
  let p := constrainPosition width height nx ny scaledWidth scaledHeight
  { x := p.1, y := p.2, scale := effectiveNewScale }

/-- A user interaction on a quadrant image. -/
inductive QuadOp
  | drag (nx ny : ℚ)
  | wheel (px py : ℚ) (zoomOut : Bool)
deriving DecidableEq, Repr

/-- Apply one interaction. -/
def applyQuadOp (img : ImgDims) (width height : ℚ) (st : QuadState) :
    QuadOp → QuadState
  | .drag nx ny => handleDragMove img width height st nx ny
  | .wheel px py zoomOut => handleWheel img width height st px py zoomOut

/-- Apply a sequence of interactions. -/
def applyQuadOps (img : ImgDims) (width height : ℚ) (st : QuadState)
    (ops : List QuadOp) : QuadState :=
  ops.foldl (applyQuadOp img width height) st

/-- The minimum quadrant-covering scale
`max (quadrantWidth/imageWidth) (quadrantHeight/imageHeight)`. -/
def minCoverScale (img : ImgDims) (width height : ℚ) : ℚ :=
  max (width / img.w) (height / img.h)

/-- The clamp invariant: the rendered image rectangle contains the
quadrant rectangle on every edge, and the scale is at least the minimum
covering scale. -/
def QuadInv (img : ImgDims) (width height : ℚ) (st : QuadState) : Prop :=
  st.x ≤ 0 ∧ width ≤ st.x + img.w * st.scale ∧
  st.y ≤ 0 ∧ height ≤ st.y + img.h * st.scale ∧
  minCoverScale img width height ≤ st.scale

instance (img : ImgDims) (width height : ℚ) (st : QuadState) :
    Decidable (QuadInv img width height st) := by
  unfold QuadInv
  infer_instance

lemma constrainPosition_covers (w h nx ny sw sh : ℚ)
    (hsw : w ≤ sw) (hsh : h ≤ sh) :
    (constrainPosition w h nx ny sw sh).1 ≤ 0 ∧
    w ≤ (constrainPosition w h nx ny sw sh).1 + sw ∧
    (constrainPosition w h nx ny sw sh).2 ≤ 0 ∧
    h ≤ (constrainPosition w h nx ny sw sh).2 + sh := by
  unfold constrainPosition
  have hnsw : ¬ sw < w := not_lt.mpr hsw
  have hnsh : ¬ sh < h := not_lt.mpr hsh
  simp only [hnsw, hnsh, if_false]
  split_ifs <;> refine ⟨by linarith, by linarith, by linarith, by linarith⟩

lemma scale_ge_cover_width (img : ImgDims) (w h s : ℚ)
    (hiw : 0 < img.w) (hs : minCoverScale img w h ≤ s) :
    w ≤ img.w * s := by
  have h1 : w / img.w ≤ s := le_trans (le_max_left _ _) hs
  have h2 : img.w * (w / img.w) ≤ img.w * s :=
    mul_le_mul_of_nonneg_left h1 (le_of_lt hiw)
  have h3 : img.w * (w / img.w) = w := by
    rw [mul_comm]
    exact div_mul_cancel₀ w (ne_of_gt hiw)
  linarith

lemma scale_ge_cover_height (img : ImgDims) (w h s : ℚ)
    (hih : 0 < img.h) (hs : minCoverScale img w h ≤ s) :
    h ≤ img.h * s := by
  have h1 : h / img.h ≤ s := le_trans (le_max_right _ _) hs
  have h2 : img.h * (h / img.h) ≤ img.h * s :=
    mul_le_mul_of_nonneg_left h1 (le_of_lt hih)
  have h3 : img.h * (h / img.h) = h := by
    rw [mul_comm]
    exact div_mul_cancel₀ h (ne_of_gt hih)
  linarith

lemma initialQuadState_inv (img : ImgDims) (w h : ℚ)
    (hw : 0 < w) (hh : 0 < h) (hiw : 0 < img.w) (hih : 0 < img.h) :
    QuadInv img w h (initialQuadState img w h) := by
  unfold initialQuadState QuadInv minCoverScale
  by_cases hc : w / h < img.w / img.h
  · rw [if_pos hc]
    rw [div_lt_div_iff hh hih] at hc
    have hsw : w ≤ img.w * (h / img.h) := by
      rw [← mul_div_assoc]
      rw [le_div_iff hih]
      nlinarith
    have hsh : img.h * (h / img.h) = h := by
      rw [mul_comm]
      exact div_mul_cancel₀ h (ne_of_gt hih)
    have hmax : w / img.w ≤ h / img.h := by
      rw [div_le_div_iff hiw hih]
      nlinarith
    refine ⟨by linarith, by linarith, le_refl 0, by simp [hsh], ?_⟩
    exact max_le hmax (le_refl _)
  · rw [if_neg hc]
    rw [not_lt, div_le_div_iff hih hh] at hc
    have hsh : h ≤ img.h * (w / img.w) := by
      rw [← mul_div_assoc]
      rw [le_div_iff hiw]
      nlinarith
    have hsw : img.w * (w / img.w) = w := by
      rw [mul_comm]
      exact div_mul_cancel₀ w (ne_of_gt hiw)
    have hmax : h / img.h ≤ w / img.w := by
      rw [div_le_div_iff hih hiw]
      nlinarith
    refine ⟨le_refl 0, by simp [hsw], by linarith, by linarith, ?_⟩
    exact max_le (le_refl _) hmax

lemma handleDragMove_inv (img : ImgDims) (w h : ℚ) (st : QuadState)
    (nx ny : ℚ) (hiw : 0 < img.w) (hih : 0 < img.h)
    (hinv : QuadInv img w h st) :
    QuadInv img w h (handleDragMove img w h st nx ny) := by
  obtain ⟨_, _, _, _, hscale⟩ := hinv
  have hsw : w ≤ img.w * st.scale := scale_ge_cover_width img w h _ hiw hscale
  have hsh : h ≤ img.h * st.scale := scale_ge_cover_height img w h _ hih hscale
  have hc := constrainPosition_covers w h nx ny (img.w * st.scale)
    (img.h * st.scale) hsw hsh
  exact ⟨hc.1, hc.2.1, hc.2.2.1, hc.2.2.2, hscale⟩

lemma handleWheel_inv (img : ImgDims) (w h : ℚ) (st : QuadState)
    (px py : ℚ) (zoomOut : Bool) (hiw : 0 < img.w) (hih : 0 < img.h) :
    QuadInv img w h (handleWheel img w h st px py zoomOut) := by
  unfold handleWheel
  set eff := max (if zoomOut then st.scale / (11 / 10) else st.scale * (11 / 10))
    (max (w / img.w) (h / img.h)) with heff
  have hscale : minCoverScale img w h ≤ eff := le_max_right _ _
  have hsw : w ≤ img.w * eff := scale_ge_cover_width img w h _ hiw hscale
  have hsh : h ≤ img.h * eff := scale_ge_cover_height img w h _ hih hscale
  have hc := constrainPosition_covers w h
    (px - (px - st.x) / st.scale * eff) (py - (py - st.y) / st.scale * eff)
    (img.w * eff) (img.h * eff) hsw hsh
  exact ⟨hc.1, hc.2.1, hc.2.2.1, hc.2.2.2, hscale⟩

/-- Claim C3: Starting from the initial cover-fit placement, after any
sequence of drag and wheel-zoom operations the image's rendered rectangle
fully contains the quadrant rectangle on every edge and the scale never
drops below the minimum covering scale
`max (quadrantWidth/imageWidth) (quadrantHeight/imageHeight)`. -/
theorem quadrant_clamp_invariant (img : ImgDims) (w h : ℚ) (ops : List QuadOp)
    (hw : 0 < w) (hh : 0 < h) (hiw : 0 < img.w) (hih : 0 < img.h) :
    QuadInv img w h (applyQuadOps img w h (initialQuadState img w h) ops) := by
  have hstep : ∀ (st : QuadState) (op : QuadOp), QuadInv img w h st →
      QuadInv img w h (applyQuadOp img w h st op) := by
    intro st op hinv
    cases op with
    | drag nx ny => exact handleDragMove_inv img w h st nx ny hiw hih hinv
    | wheel px py zoomOut => exact handleWheel_inv img w h st px py zoomOut hiw hih
  have hfold : ∀ (l : List QuadOp) (st : QuadState), QuadInv img w h st →
      QuadInv img w h (applyQuadOps img w h st l) := by
    intro l
    induction l with
    | nil => intro st hst; exact hst
    | cons op rest ih =>
      intro st hst
      exact ih (applyQuadOp img w h st op) (hstep st op hst)
  exact hfold ops _ (initialQuadState_inv img w h hw hh hiw hih)

/-- Witness for `quadrant_clamp_invariant`: a 600×400 image in a 480×270
quadrant, dragged then zoomed out twice. -/
theorem quadrant_clamp_invariant_witness :
    ((0 : ℚ) < 480 ∧ (0 : ℚ) < 270 ∧
      (ImgDims.mk 600 400).w > 0 ∧ (ImgDims.mk 600 400).h > 0) ∧
    QuadInv (ImgDims.mk 600 400) 480 270
      (applyQuadOps (ImgDims.mk 600 400) 480 270
        (initialQuadState (ImgDims.mk 600 400) 480 270)
        [QuadOp.drag 50 (-30), QuadOp.wheel 100 100 true,
         QuadOp.wheel 100 100 true]) :=
  ⟨⟨by norm_num, by norm_num, by norm_num, by norm_num⟩,
   quadrant_clamp_invariant (ImgDims.mk 600 400) 480 270
     [QuadOp.drag 50 (-30), QuadOp.wheel 100 100 true, QuadOp.wheel 100 100 true]
     (by norm_num) (by norm_num) (by norm_num) (by norm_num)⟩

/-! ## Text fit: `calculateOptimalFontSize` (part_001)

The canvas text-measurement capability (`context.measureText` after setting
`context.font`) is abstracted as `measure : Int → JSStr → ℚ`, mapping a
font size and a string to the rendered width.  The word wrap and the
binary search are embedded exactly; the SSR early-return (no `document`)
is outside the client path the claims describe.  The line-height factor
1.2 is the exact rational `6/5`. -/

/-- The inner loop of `calculateTextHeight` (part_001): greedy word wrap.
`cur` is `currentLine`; JS string truthiness of `currentLine` is emptiness
of the list. -/
def wrapWordsAux (m : JSStr → ℚ) (maxWidth : ℚ) :
    List JSStr → JSStr → List JSStr
  | [], cur => if cur = [] then [] else [cur]
  | w :: ws, cur =>
    if m (if cur = [] then w else cur ++ ' ' :: w) ≤ maxWidth then
      wrapWordsAux m maxWidth ws (if cur = [] then w else cur ++ ' ' :: w)
    else if cur = [] then w :: wrapWordsAux m maxWidth ws []
    else cur :: wrapWordsAux m maxWidth ws w

/-- The list of wrapped lines of `text` at the given measure and width:
`text.split(' ')` fed through the greedy wrap. -/
def wrapLines (m : JSStr → ℚ) (maxWidth : ℚ) (text : JSStr) : List JSStr :=
  wrapWordsAux m maxWidth (splitOnSpace text) []

/-- Embedding of `calculateTextHeight` (part_001): number of wrapped lines times
`fontSize * 1.2`. -/
def calculateTextHeight (measure : Int → JSStr → ℚ) (text : JSStr)
    (maxWidth : ℚ) (fontSize : Int) : ℚ :=
  ((wrapLines (measure fontSize) maxWidth text).length : ℚ) *
    ((fontSize : ℚ) * (6 / 5))

/-- The binary-search loop of `calculateOptimalFontSize` (part_001):
`low`/`high` bracket the candidates, `opt` is `optimalSize` (initially the
maximum size), `mid = Math.floor((low+high)/2)`; a fitting `mid` is
recorded and the search continues above it, a non-fitting one below. -/
def fontSearchAux (fits : Int → Bool) (low high opt : Int) : Int :=
  if h : low ≤ high then
    if fits ((low + high) / 2) then
      fontSearchAux fits ((low + high) / 2 + 1) high ((low + high) / 2)
    else fontSearchAux fits low ((low + high) / 2 - 1) opt
  else opt
termination_by (high + 1 - low).toNat
decreasing_by
  · omega
  · omega

/-- Embedding of `TEXT_FONT_SIZE_MAX` (part_001). -/
def TEXT_FONT_SIZE_MAX : Int := 48

/-- Embedding of `TEXT_FONT_SIZE_MIN` (part_001). -/
def TEXT_FONT_SIZE_MIN : Int := 24

/-- Embedding of `calculateOptimalFontSize` (part_001): binary search for the largest
font size whose wrapped-text height fits within `maxHeight`, starting with
`optimalSize = maxFontSize`. -/
def calculateOptimalFontSize (measure : Int → JSStr → ℚ) (text : JSStr)
    (maxWidth maxHeight : ℚ) (maxFontSize minFontSize : Int) : Int :=
  fontSearchAux
    (fun s => decide (calculateTextHeight measure text maxWidth s ≤ maxHeight))
    minFontSize maxFontSize maxFontSize

/-- Join words with single spaces (the string a run of accepted
`currentLine = currentLine + ' ' + word` steps builds). -/
def joinWords : List JSStr → JSStr
  | [] => []
  | [w] => w
  | w :: ws => w ++ ' ' :: joinWords ws

lemma joinWords_cons_ne (w : JSStr) (ws : List JSStr) (h : ws ≠ []) :
    joinWords (w :: ws) = w ++ ' ' :: joinWords ws := by
  cases ws with
  | nil => exact absurd rfl h
  | cons a as => rfl

lemma joinWords_append_single (ds : List JSStr) (w : JSStr) (h : ds ≠ []) :
    joinWords (ds ++ [w]) = joinWords ds ++ ' ' :: w := by
  induction ds with
  | nil => exact absurd rfl h
  | cons d ds ih =>
    cases ds with
    | nil => rfl
    | cons e es =>
      rw [List.cons_append, joinWords_cons_ne d ((e :: es) ++ [w]) (by simp),
        joinWords_cons_ne d (e :: es) (by simp), ih (by simp), List.append_assoc]
      rfl

lemma joinWords_glue (a b : JSStr) (r : List JSStr) :
    joinWords ((a ++ ' ' :: b) :: r) = joinWords (a :: b :: r) := by
  cases r with
  | nil => rfl
  | cons c cs =>
    rw [joinWords_cons_ne _ _ (by simp), joinWords_cons_ne a (b :: c :: cs) (by simp),
      joinWords_cons_ne b (c :: cs) (by simp), List.append_assoc]
    rfl

lemma joinWords_prefix (pre post : List JSStr) (h : pre ≠ []) :
    joinWords pre <+: joinWords (pre ++ post) := by
  induction pre with
  | nil => exact absurd rfl h
  | cons d pre' ih =>
    cases pre' with
    | nil =>
      cases post with
      | nil => simp
      | cons q qs =>
        rw [List.cons_append, List.nil_append,
          joinWords_cons_ne d (q :: qs) (by simp)]
        exact ⟨' ' :: joinWords (q :: qs), rfl⟩
    | cons e es =>
      rw [List.cons_append, joinWords_cons_ne d (e :: es) (by simp),
        joinWords_cons_ne d ((e :: es) ++ post) (by simp)]
      obtain ⟨t, ht⟩ := ih (by simp)
      exact ⟨t, by simp [List.append_assoc, ht]⟩

lemma splitOnSpace_single (w : JSStr) (h : ' ' ∉ w) :
    splitOnSpace w = [w] := by
  induction w with
  | nil => rfl
  | cons c cs ih =>
    unfold splitOnSpace
    have hc : ¬ c = ' ' := fun hcc => h (by rw [hcc]; exact List.mem_cons_self _ _)
    rw [if_neg hc, ih (fun hmem => h (List.mem_cons_of_mem _ hmem))]

lemma splitOnSpace_append_space (w rest : JSStr) (h : ' ' ∉ w) :
    splitOnSpace (w ++ ' ' :: rest) = w :: splitOnSpace rest := by
  induction w with
  | nil => simp [splitOnSpace]
  | cons c cs ih =>
    have hc : ¬ c = ' ' := fun hcc => h (by rw [hcc]; exact List.mem_cons_self _ _)
    rw [List.cons_append]
    conv_lhs => rw [splitOnSpace]
    rw [if_neg hc, ih (fun hmem => h (List.mem_cons_of_mem _ hmem))]

lemma splitOnSpace_joinWords (ds : List JSStr) (h : ds ≠ [])
    (hsp : ∀ d ∈ ds, ' ' ∉ d) :
    splitOnSpace (joinWords ds) = ds := by
  induction ds with
  | nil => exact absurd rfl h
  | cons d ds ih =>
    cases ds with
    | nil => exact splitOnSpace_single d (hsp d (List.mem_cons_self _ _))
    | cons e es =>
      rw [joinWords_cons_ne d (e :: es) (by simp),
        splitOnSpace_append_space d (joinWords (e :: es))
          (hsp d (List.mem_cons_self _ _)),
        ih (by simp) (fun x hx => hsp x (List.mem_cons_of_mem _ hx))]

lemma wrapLines_single_word (m : JSStr → ℚ) (maxW : ℚ) (w : JSStr)
    (hw : w ≠ []) (hsp : ' ' ∉ w) : wrapLines m maxW w = [w] := by
  unfold wrapLines
  rw [splitOnSpace_single w hsp]
  by_cases hfit : m w ≤ maxW <;> simp [wrapWordsAux, hfit, hw]

/-- Shape of a committed wrap line: a single space-free word (an empty one
only when even the empty string overflows the width), or a join of two or
more space-free words with a nonempty first word whose full join fits. -/
def GoodLine (m : JSStr → ℚ) (maxW : ℚ) (L : JSStr) : Prop :=
  (' ' ∉ L ∧ (L = [] → ¬ m [] ≤ maxW)) ∨
  (∃ ds : List JSStr, 2 ≤ ds.length ∧ (∀ d ∈ ds, ' ' ∉ d) ∧
    (∃ d0 tl, ds = d0 :: tl ∧ d0 ≠ []) ∧ L = joinWords ds ∧ m L ≤ maxW)

/-- Shape of a nonempty wrap accumulator (`currentLine`): a join of
space-free words with a nonempty first word, measured within the width as
soon as it holds two or more words. -/
def GoodCur (m : JSStr → ℚ) (maxW : ℚ) (cur : JSStr) : Prop :=
  ∃ ds : List JSStr, (∀ d ∈ ds, ' ' ∉ d) ∧
    (∃ d0 tl, ds = d0 :: tl ∧ d0 ≠ []) ∧ cur = joinWords ds ∧
    (2 ≤ ds.length → m cur ≤ maxW)

lemma goodCur_goodLine (m : JSStr → ℚ) (maxW : ℚ) (cur : JSStr)
    (h : GoodCur m maxW cur) : GoodLine m maxW cur := by
  obtain ⟨ds, hsp, ⟨d0, tl, hds, hd0⟩, hj, hfit⟩ := h
  cases tl with
  | nil =>
    left
    subst hds
    constructor
    · rw [hj]
      exact hsp d0 (List.mem_cons_self _ _)
    · intro hnil
      rw [hj] at hnil
      exact absurd hnil hd0
  | cons d1 tl' =>
    right
    exact ⟨ds, by rw [hds]; simp, hsp, ⟨d0, d1 :: tl', hds, hd0⟩, hj, hfit (by rw [hds]; simp)⟩

lemma wrapWordsAux_good (m : JSStr → ℚ) (maxW : ℚ) :
    ∀ (ws : List JSStr) (cur : JSStr),
    (∀ w ∈ ws, ' ' ∉ w) → (cur = [] ∨ GoodCur m maxW cur) →
    ∀ L ∈ wrapWordsAux m maxW ws cur, GoodLine m maxW L := by
  intro ws
  induction ws with
  | nil =>
    intro cur _ hcur L hL
    unfold wrapWordsAux at hL
    by_cases hc : cur = []
    · rw [if_pos hc] at hL
      exact absurd hL (List.not_mem_nil L)
    · rw [if_neg hc] at hL
      rw [List.mem_singleton] at hL
      subst hL
      rcases hcur with h | h
      · exact absurd h hc
      · exact goodCur_goodLine m maxW L h
  | cons w ws ih =>
    intro cur hws hcur L hL
    have hwsp : ' ' ∉ w := hws w (List.mem_cons_self _ _)
    have hws' : ∀ x ∈ ws, ' ' ∉ x := fun x hx => hws x (List.mem_cons_of_mem _ hx)
    unfold wrapWordsAux at hL
    by_cases hc : cur = []
    · subst hc
      rw [if_pos rfl] at hL
      by_cases hfit : m w ≤ maxW
      · rw [if_pos hfit] at hL
        refine ih w hws' ?_ L hL
        by_cases hwnil : w = []
        · exact Or.inl hwnil
        · exact Or.inr ⟨[w], by simpa using hwsp, ⟨w, [], rfl, hwnil⟩, rfl, by simp⟩
      · rw [if_neg hfit, if_pos rfl] at hL
        rcases List.mem_cons.mp hL with h1 | h2
        · subst h1
          left
          exact ⟨hwsp, fun hnil => by rw [hnil] at hfit; exact hfit⟩
        · exact ih [] hws' (Or.inl rfl) L h2
    · rw [if_neg hc] at hL
      rcases hcur with h | hgood
      · exact absurd h hc
      · by_cases hfit : m (cur ++ ' ' :: w) ≤ maxW
        · rw [if_pos hfit] at hL
          refine ih (cur ++ ' ' :: w) hws' (Or.inr ?_) L hL
          obtain ⟨ds, hsp, ⟨d0, tl, hds, hd0⟩, hj, _⟩ := hgood
          refine ⟨ds ++ [w], ?_, ⟨d0, tl ++ [w], by rw [hds]; simp, hd0⟩, ?_, ?_⟩
          · intro d hd
            rcases List.mem_append.mp hd with h1 | h2
            · exact hsp d h1
            · rw [List.mem_singleton] at h2
              subst h2
              exact hwsp
          · rw [joinWords_append_single ds w (by rw [hds]; simp), hj]
          · intro _
            exact hfit
        · rw [if_neg hfit, if_neg hc] at hL
          rcases List.mem_cons.mp hL with h1 | h2
          · subst h1
            exact goodCur_goodLine m maxW L hgood
          · refine ih w hws' ?_ L h2
            by_cases hwnil : w = []
            · exact Or.inl hwnil
            · exact Or.inr ⟨[w], by simpa using hwsp, ⟨w, [], rfl, hwnil⟩, rfl, by simp⟩

lemma wrapWordsAux_all_fit (m : JSStr → ℚ) (maxW : ℚ) :
    ∀ (rest : List JSStr) (cur : JSStr), cur ≠ [] →
    (∀ pre, pre <+: rest → m (joinWords (cur :: pre)) ≤ maxW) →
    wrapWordsAux m maxW rest cur = [joinWords (cur :: rest)] := by
  intro rest
  induction rest with
  | nil =>
    intro cur hc _
    unfold wrapWordsAux
    rw [if_neg hc]
    rfl
  | cons w rest ih =>
    intro cur hc hall
    have htest : m (cur ++ ' ' :: w) ≤ maxW := by
      have h1 := hall [w] ⟨rest, rfl⟩
      rwa [joinWords_cons_ne cur [w] (by simp)] at h1
    unfold wrapWordsAux
    rw [if_neg hc, if_pos htest]
    rw [ih (cur ++ ' ' :: w) (by simp) ?_]
    · rw [joinWords_glue]
    · intro pre hpre
      rw [joinWords_glue]
      have h2 : (w :: pre) <+: (w :: rest) := by
        rw [List.cons_prefix_cons]
        exact ⟨rfl, hpre⟩
      exact hall (w :: pre) h2

lemma goodLine_rewrap (m : JSStr → ℚ) (maxW : ℚ)
    (hm : ∀ a b : JSStr, a.Sublist b → m a ≤ m b)
    (L : JSStr) (hL : GoodLine m maxW L) : wrapLines m maxW L = [L] := by
  rcases hL with ⟨hsp, hemp⟩ | ⟨ds, hlen, hsp, ⟨d0, tl, hds, hd0⟩, hj, hfit⟩
  · by_cases hLnil : L = []
    · subst hLnil
      have h0 : ¬ m [] ≤ maxW := hemp rfl
      simp [wrapLines, splitOnSpace, wrapWordsAux, h0]
    · exact wrapLines_single_word m maxW L hLnil hsp
  · subst hds
    cases tl with
    | nil => simp at hlen
    | cons d1 tl' =>
      subst hj
      unfold wrapLines
      rw [splitOnSpace_joinWords _ (by simp) hsp]
      have hprefix : ∀ pre, (d0 :: pre) <+: (d0 :: d1 :: tl') →
          m (joinWords (d0 :: pre)) ≤ maxW := by
        intro pre hpre
        obtain ⟨post, hpost⟩ := hpre
        refine le_trans (hm _ _ (List.IsPrefix.sublist ?_)) hfit
        rw [← hpost]
        exact joinWords_prefix (d0 :: pre) post (by simp)
      have hd0fit : m d0 ≤ maxW := hprefix [] ⟨d1 :: tl', rfl⟩
      unfold wrapWordsAux
      rw [if_pos rfl, if_pos hd0fit]
      rw [wrapWordsAux_all_fit m maxW (d1 :: tl') d0 hd0 ?_]
      intro pre hpre
      refine hprefix pre ?_
      rw [List.cons_prefix_cons]
      exact ⟨rfl, hpre⟩

/-- Claim C2: The wrap used by the text-fit routine keeps a single word as
its own line even when it is wider than the max width (never truncating
it), and — for any width measure monotone under character deletion
(`Sublist`) — it is idempotent: re-wrapping each produced line at the same
measure and width reproduces exactly that line. -/
theorem wrapLines_greedy_idempotent (m : JSStr → ℚ) (maxW : ℚ) (text : JSStr)
    (hm : ∀ a b : JSStr, a.Sublist b → m a ≤ m b) :
    (∀ w : JSStr, w ≠ [] → ' ' ∉ w → wrapLines m maxW w = [w]) ∧
    (∀ L ∈ wrapLines m maxW text, wrapLines m maxW L = [L]) := by
  refine ⟨fun w hw hsp => wrapLines_single_word m maxW w hw hsp, fun L hL => ?_⟩
  refine goodLine_rewrap m maxW hm L ?_
  exact wrapWordsAux_good m maxW (splitOnSpace text) []
    (splitOnSpace_space_free text) (Or.inl rfl) L hL

/-- A concrete length-based width measure (one unit per character). -/
def lenMeasure : JSStr → ℚ := fun t => (t.length : ℚ)

lemma lenMeasure_mono : ∀ a b : JSStr, a.Sublist b → lenMeasure a ≤ lenMeasure b :=
  fun a b h => by unfold lenMeasure; exact_mod_cast h.length_le

/-- Witness for `wrapLines_greedy_idempotent` with the length measure on a
concrete three-word text. -/
theorem wrapLines_greedy_idempotent_witness :
    (∀ a b : JSStr, a.Sublist b → lenMeasure a ≤ lenMeasure b) ∧
    ((∀ w : JSStr, w ≠ [] → ' ' ∉ w → wrapLines lenMeasure 7 w = [w]) ∧
     (∀ L ∈ wrapLines lenMeasure 7 "big red dog".toList,
        wrapLines lenMeasure 7 L = [L])) :=
  ⟨lenMeasure_mono,
   wrapLines_greedy_idempotent lenMeasure 7 "big red dog".toList lenMeasure_mono⟩

lemma fontSearchAux_step_pos (fits : Int → Bool) (low high opt : Int)
    (h : low ≤ high) (hf : fits ((low + high) / 2) = true) :
    fontSearchAux fits low high opt =
      fontSearchAux fits ((low + high) / 2 + 1) high ((low + high) / 2) := by
  rw [fontSearchAux]
  simp [h, hf]

lemma fontSearchAux_step_neg (fits : Int → Bool) (low high opt : Int)
    (h : low ≤ high) (hf : fits ((low + high) / 2) = false) :
    fontSearchAux fits low high opt =
      fontSearchAux fits low ((low + high) / 2 - 1) opt := by
  rw [fontSearchAux]
  simp [h, hf]

lemma fontSearchAux_stop (fits : Int → Bool) (low high opt : Int)
    (h : ¬ low ≤ high) : fontSearchAux fits low high opt = opt := by
  rw [fontSearchAux]
  simp [h]

/-- Correctness of the binary-search loop on a bracket `[lo0, hi0]` with a
downward-closed fit predicate: if nothing in the bracket fits, the initial
`opt = hi0` is returned; if something fits, the returned size fits and is
the largest fitting size. -/
lemma fontSearchAux_spec (fits : Int → Bool) (lo0 hi0 : Int)
    (hdc : ∀ s t : Int, lo0 ≤ s → s ≤ t → t ≤ hi0 → fits t = true →
      fits s = true) :
    ∀ (n : ℕ) (low high opt : Int), (high + 1 - low).toNat = n →
    lo0 ≤ low → high ≤ hi0 → low ≤ hi0 + 1 → lo0 - 1 ≤ high →
    (∀ s, lo0 ≤ s → s < low → fits s = true) →
    (∀ s, high < s → s ≤ hi0 → fits s = false) →
    ((low = lo0 ∧ opt = hi0) ∨ (lo0 < low ∧ opt = low - 1)) →
    ((∀ s, lo0 ≤ s → s ≤ hi0 → fits s = false) →
        fontSearchAux fits low high opt = hi0) ∧
    ((∃ s, lo0 ≤ s ∧ s ≤ hi0 ∧ fits s = true) →
      lo0 ≤ fontSearchAux fits low high opt ∧
      fontSearchAux fits low high opt ≤ hi0 ∧
      fits (fontSearchAux fits low high opt) = true ∧
      ∀ s, lo0 ≤ s → s ≤ hi0 → fits s = true →
        s ≤ fontSearchAux fits low high opt) := by
  intro n
  induction n using Nat.strong_induction_on with
  | _ n ih =>
    intro low high opt hn hlo hhi hlow hhigh hA hB hopt
    by_cases hlh : low ≤ high
    · have hmid1 : low ≤ (low + high) / 2 := by omega
      have hmid2 : (low + high) / 2 ≤ high := by omega
      by_cases hf : fits ((low + high) / 2) = true
      · rw [fontSearchAux_step_pos fits low high opt hlh hf]
        refine ih ((high + 1 - ((low + high) / 2 + 1)).toNat) (by omega)
          ((low + high) / 2 + 1) high ((low + high) / 2) rfl
          (by omega) hhi (by omega) hhigh ?_ hB ?_
        · intro s h1 h2
          exact hdc s ((low + high) / 2) h1 (by omega) (by omega) hf
        · right
          exact ⟨by omega, by omega⟩
      · rw [Bool.not_eq_true] at hf
        rw [fontSearchAux_step_neg fits low high opt hlh hf]
        refine ih (((low + high) / 2 - 1 + 1 - low).toNat) (by omega)
          low ((low + high) / 2 - 1) opt rfl
          hlo (by omega) hlow (by omega) hA ?_ hopt
        intro s h1 h2
        cases hfs : fits s with
        | false => rfl
        | true =>
          have : fits ((low + high) / 2) = true :=
            hdc ((low + high) / 2) s (by omega) (by omega) h2 hfs
          rw [this] at hf
          exact absurd hf (by simp)
    · rw [fontSearchAux_stop fits low high opt hlh]
      constructor
      · intro hnone
        rcases hopt with ⟨_, h2⟩ | ⟨hlt, hopt2⟩
        · exact h2
        · have hfitl : fits (low - 1) = true := hA (low - 1) (by omega) (by omega)
          have hfal : fits (low - 1) = false := hnone (low - 1) (by omega) (by omega)
          rw [hfitl] at hfal
          exact absurd hfal (by simp)
      · intro ⟨s, hs1, hs2, hs3⟩
        rcases hopt with ⟨hl0, hopt1⟩ | ⟨hlt, hopt2⟩
        · have : fits s = false := hB s (by omega) hs2
          rw [hs3] at this
          exact absurd this (by simp)
        · subst hopt2
          refine ⟨by omega, by omega, hA (low - 1) (by omega) (by omega), ?_⟩
          intro t h1 h2 h3
          by_contra hgt
          have : fits t = false := hB t (by omega) h2
          rw [h3] at this
          exact absurd this (by simp)

/-- Claim C1, amended: Over the configured range 24–48, provided the fit
predicate is downward closed in the font size (true of any measure whose
wrap height grows with font size) and at least one size in the range fits,
`calculateOptimalFontSize` returns a size `S` in range whose wrapped
height fits, such that `S+1` (when still at most 48) does not fit, and `S`
is the largest fitting size (ties favor the larger size). -/
theorem calculateOptimalFontSize_spec (measure : Int → JSStr → ℚ)
    (text : JSStr) (maxW maxH : ℚ)
    (hdc : ∀ s t : Int, TEXT_FONT_SIZE_MIN ≤ s → s ≤ t →
      t ≤ TEXT_FONT_SIZE_MAX →
      calculateTextHeight measure text maxW t ≤ maxH →
      calculateTextHeight measure text maxW s ≤ maxH)
    (hex : ∃ s : Int, TEXT_FONT_SIZE_MIN ≤ s ∧ s ≤ TEXT_FONT_SIZE_MAX ∧
      calculateTextHeight measure text maxW s ≤ maxH) :
    ∀ S : Int, S = calculateOptimalFontSize measure text maxW maxH
        TEXT_FONT_SIZE_MAX TEXT_FONT_SIZE_MIN →
    TEXT_FONT_SIZE_MIN ≤ S ∧ S ≤ TEXT_FONT_SIZE_MAX ∧
    calculateTextHeight measure text maxW S ≤ maxH ∧
    (S + 1 ≤ TEXT_FONT_SIZE_MAX →
      ¬ calculateTextHeight measure text maxW (S + 1) ≤ maxH) ∧
    (∀ s : Int, TEXT_FONT_SIZE_MIN ≤ s → s ≤ TEXT_FONT_SIZE_MAX →
      calculateTextHeight measure text maxW s ≤ maxH → s ≤ S) := by
  intro S hS
  have hdcB : ∀ s t : Int, TEXT_FONT_SIZE_MIN ≤ s → s ≤ t →
      t ≤ TEXT_FONT_SIZE_MAX →
      (fun u => decide (calculateTextHeight measure text maxW u ≤ maxH)) t =
        true →
      (fun u => decide (calculateTextHeight measure text maxW u ≤ maxH)) s =
        true := by
    intro s t h1 h2 h3 h4
    simp only [decide_eq_true_eq] at h4 ⊢
    exact hdc s t h1 h2 h3 h4
  have hmain := (fontSearchAux_spec
    (fun u => decide (calculateTextHeight measure text maxW u ≤ maxH))
    TEXT_FONT_SIZE_MIN TEXT_FONT_SIZE_MAX hdcB
    ((TEXT_FONT_SIZE_MAX + 1 - TEXT_FONT_SIZE_MIN).toNat)
    TEXT_FONT_SIZE_MIN TEXT_FONT_SIZE_MAX TEXT_FONT_SIZE_MAX rfl
    (le_refl _) (le_refl _)
    (by norm_num [TEXT_FONT_SIZE_MIN, TEXT_FONT_SIZE_MAX])
    (by norm_num [TEXT_FONT_SIZE_MIN, TEXT_FONT_SIZE_MAX])
    (fun s h1 h2 => absurd h2 (by omega))
    (fun s h1 h2 => absurd h1 (by omega))
    (Or.inl ⟨rfl, rfl⟩)).2
  have hexB : ∃ s : Int, TEXT_FONT_SIZE_MIN ≤ s ∧ s ≤ TEXT_FONT_SIZE_MAX ∧
      (fun u => decide (calculateTextHeight measure text maxW u ≤ maxH)) s =
        true := by
    obtain ⟨s, h1, h2, h3⟩ := hex
    exact ⟨s, h1, h2, by simpa using h3⟩
  have hres := hmain hexB
  have hSdef : S = fontSearchAux
      (fun u => decide (calculateTextHeight measure text maxW u ≤ maxH))
      TEXT_FONT_SIZE_MIN TEXT_FONT_SIZE_MAX TEXT_FONT_SIZE_MAX := hS
  rw [← hSdef] at hres
  obtain ⟨hr1, hr2, hr3, hr4⟩ := hres
  simp only [decide_eq_true_eq] at hr3
  refine ⟨hr1, hr2, hr3, ?_, ?_⟩
  · intro hle hfit1
    have := hr4 (S + 1) (by omega) hle (by simpa using hfit1)
    omega
  · intro s h1 h2 h3
    exact hr4 s h1 h2 (by simpa using h3)

/-- A concrete width measure linear in the font size: one font-size unit of
width per character. -/
def cexMeasure : Int → JSStr → ℚ := fun s t => (s : ℚ) * (t.length : ℚ)

lemma cexMeasure_height (s : Int) (maxH : ℚ) :
    calculateTextHeight cexMeasure "HI".toList 10000 s = (s : ℚ) * (6 / 5) := by
  unfold calculateTextHeight
  rw [wrapLines_single_word _ _ _ (by decide) (by decide)]
  norm_num

/-- Claim C1, counterexample: At measure `cexMeasure`, text `"HI"`, max
width 10000 and max height 1, no font size in 24–48 fits, and the function
returns 48, whose wrapped height 57.6 exceeds the max height — so the
returned size does not satisfy the fit property the claim asserts
unconditionally. -/
theorem calculateOptimalFontSize_claim_false :
    calculateOptimalFontSize cexMeasure "HI".toList 10000 1
      TEXT_FONT_SIZE_MAX TEXT_FONT_SIZE_MIN = 48 ∧
    ¬ calculateTextHeight cexMeasure "HI".toList 10000
      (calculateOptimalFontSize cexMeasure "HI".toList 10000 1
        TEXT_FONT_SIZE_MAX TEXT_FONT_SIZE_MIN) ≤ 1 := by
  have hfalse : ∀ s : Int, TEXT_FONT_SIZE_MIN ≤ s → s ≤ TEXT_FONT_SIZE_MAX →
      (fun u => decide (calculateTextHeight cexMeasure "HI".toList 10000 u ≤
        (1 : ℚ))) s = false := by
    intro s h1 h2
    simp only [decide_eq_false_iff_not]
    rw [cexMeasure_height s 1]
    have hs : (24 : ℚ) ≤ (s : ℚ) := by exact_mod_cast h1
    intro hcontra
    nlinarith
  have hdcB : ∀ s t : Int, TEXT_FONT_SIZE_MIN ≤ s → s ≤ t →
      t ≤ TEXT_FONT_SIZE_MAX →
      (fun u => decide (calculateTextHeight cexMeasure "HI".toList 10000 u ≤
        (1 : ℚ))) t = true →
      (fun u => decide (calculateTextHeight cexMeasure "HI".toList 10000 u ≤
        (1 : ℚ))) s = true := by
    intro s t h1 h2 h3 h4
    rw [hfalse t (by omega) h3] at h4
    exact absurd h4 (by simp)
  have hmain := (fontSearchAux_spec
    (fun u => decide (calculateTextHeight cexMeasure "HI".toList 10000 u ≤
      (1 : ℚ)))
    TEXT_FONT_SIZE_MIN TEXT_FONT_SIZE_MAX hdcB
    ((TEXT_FONT_SIZE_MAX + 1 - TEXT_FONT_SIZE_MIN).toNat)
    TEXT_FONT_SIZE_MIN TEXT_FONT_SIZE_MAX TEXT_FONT_SIZE_MAX rfl
    (le_refl _) (le_refl _)
    (by norm_num [TEXT_FONT_SIZE_MIN, TEXT_FONT_SIZE_MAX])
    (by norm_num [TEXT_FONT_SIZE_MIN, TEXT_FONT_SIZE_MAX])
    (fun s h1 h2 => absurd h2 (by omega))
    (fun s h1 h2 => absurd h1 (by omega))
    (Or.inl ⟨rfl, rfl⟩)).1 hfalse
  have hres : calculateOptimalFontSize cexMeasure "HI".toList 10000 1
      TEXT_FONT_SIZE_MAX TEXT_FONT_SIZE_MIN = TEXT_FONT_SIZE_MAX := hmain
  constructor
  · rw [hres]
    rfl
  · rw [hres]
    rw [cexMeasure_height _ 1]
    norm_num [TEXT_FONT_SIZE_MAX]

/-- Witness for `calculateOptimalFontSize_spec`: with `cexMeasure`, text
`"HI"`, max width 10000 and max height 100, every size in range fits, and
the search returns the maximum 48. -/
theorem calculateOptimalFontSize_spec_witness :
    (∃ s : Int, TEXT_FONT_SIZE_MIN ≤ s ∧ s ≤ TEXT_FONT_SIZE_MAX ∧
      calculateTextHeight cexMeasure "HI".toList 10000 s ≤ 100) ∧
    (TEXT_FONT_SIZE_MIN ≤ calculateOptimalFontSize cexMeasure "HI".toList
        10000 100 TEXT_FONT_SIZE_MAX TEXT_FONT_SIZE_MIN ∧
     calculateOptimalFontSize cexMeasure "HI".toList 10000 100
        TEXT_FONT_SIZE_MAX TEXT_FONT_SIZE_MIN ≤ TEXT_FONT_SIZE_MAX ∧
     calculateTextHeight cexMeasure "HI".toList 10000
        (calculateOptimalFontSize cexMeasure "HI".toList 10000 100
          TEXT_FONT_SIZE_MAX TEXT_FONT_SIZE_MIN) ≤ 100 ∧
     (calculateOptimalFontSize cexMeasure "HI".toList 10000 100
          TEXT_FONT_SIZE_MAX TEXT_FONT_SIZE_MIN + 1 ≤ TEXT_FONT_SIZE_MAX →
       ¬ calculateTextHeight cexMeasure "HI".toList 10000
          (calculateOptimalFontSize cexMeasure "HI".toList 10000 100
            TEXT_FONT_SIZE_MAX TEXT_FONT_SIZE_MIN + 1) ≤ 100) ∧
     (∀ s : Int, TEXT_FONT_SIZE_MIN ≤ s → s ≤ TEXT_FONT_SIZE_MAX →
       calculateTextHeight cexMeasure "HI".toList 10000 s ≤ 100 →
       s ≤ calculateOptimalFontSize cexMeasure "HI".toList 10000 100
            TEXT_FONT_SIZE_MAX TEXT_FONT_SIZE_MIN)) := by
  have hdc : ∀ s t : Int, TEXT_FONT_SIZE_MIN ≤ s → s ≤ t →
      t ≤ TEXT_FONT_SIZE_MAX →
      calculateTextHeight cexMeasure "HI".toList 10000 t ≤ 100 →
      calculateTextHeight cexMeasure "HI".toList 10000 s ≤ 100 := by
    intro s t h1 h2 h3 h4
    rw [cexMeasure_height t 100] at h4
    rw [cexMeasure_height s 100]
    have hst : (s : ℚ) ≤ (t : ℚ) := by exact_mod_cast h2
    nlinarith
  have hex : ∃ s : Int, TEXT_FONT_SIZE_MIN ≤ s ∧ s ≤ TEXT_FONT_SIZE_MAX ∧
      calculateTextHeight cexMeasure "HI".toList 10000 s ≤ 100 := by
    refine ⟨24, by norm_num [TEXT_FONT_SIZE_MIN],
      by norm_num [TEXT_FONT_SIZE_MAX], ?_⟩
    rw [cexMeasure_height 24 100]
    norm_num
  exact ⟨hex, calculateOptimalFontSize_spec cexMeasure "HI".toList 10000 100
    hdc hex _ rfl⟩

/-- Claim C9: When even the minimum font size 24 overflows the max height
(and the fit predicate is downward closed, so no size in 24–48 fits),
`calculateOptimalFontSize` returns the maximum font size 48 — the initial
`optimalSize`, never overwritten — not the minimum. -/
theorem calculateOptimalFontSize_no_fit_returns_max (measure : Int → JSStr → ℚ)
    (text : JSStr) (maxW maxH : ℚ)
    (hdc : ∀ s t : Int, TEXT_FONT_SIZE_MIN ≤ s → s ≤ t →
      t ≤ TEXT_FONT_SIZE_MAX →
      calculateTextHeight measure text maxW t ≤ maxH →
      calculateTextHeight measure text maxW s ≤ maxH)
    (hmin : ¬ calculateTextHeight measure text maxW TEXT_FONT_SIZE_MIN ≤ maxH) :
    calculateOptimalFontSize measure text maxW maxH
      TEXT_FONT_SIZE_MAX TEXT_FONT_SIZE_MIN = TEXT_FONT_SIZE_MAX := by
  have hfalse : ∀ s : Int, TEXT_FONT_SIZE_MIN ≤ s → s ≤ TEXT_FONT_SIZE_MAX →
      (fun u => decide (calculateTextHeight measure text maxW u ≤ maxH)) s =
        false := by
    intro s h1 h2
    simp only [decide_eq_false_iff_not]
    intro hcontra
    exact hmin (hdc TEXT_FONT_SIZE_MIN s (le_refl _) h1 h2 hcontra)
  have hdcB : ∀ s t : Int, TEXT_FONT_SIZE_MIN ≤ s → s ≤ t →
      t ≤ TEXT_FONT_SIZE_MAX →
      (fun u => decide (calculateTextHeight measure text maxW u ≤ maxH)) t =
        true →
      (fun u => decide (calculateTextHeight measure text maxW u ≤ maxH)) s =
        true := by
    intro s t h1 h2 h3 h4
    rw [hfalse t (by omega) h3] at h4
    exact absurd h4 (by simp)
  exact (fontSearchAux_spec
    (fun u => decide (calculateTextHeight measure text maxW u ≤ maxH))
    TEXT_FONT_SIZE_MIN TEXT_FONT_SIZE_MAX hdcB
    ((TEXT_FONT_SIZE_MAX + 1 - TEXT_FONT_SIZE_MIN).toNat)
    TEXT_FONT_SIZE_MIN TEXT_FONT_SIZE_MAX TEXT_FONT_SIZE_MAX rfl
    (le_refl _) (le_refl _)
    (by norm_num [TEXT_FONT_SIZE_MIN, TEXT_FONT_SIZE_MAX])
    (by norm_num [TEXT_FONT_SIZE_MIN, TEXT_FONT_SIZE_MAX])
    (fun s h1 h2 => absurd h2 (by omega))
    (fun s h1 h2 => absurd h1 (by omega))
    (Or.inl ⟨rfl, rfl⟩)).1 hfalse

/-- Witness for `calculateOptimalFontSize_no_fit_returns_max`: with
`cexMeasure`, text `"HI"`, max width 10000 and max height 1, size 24
overflows and the function returns 48. -/
theorem calculateOptimalFontSize_no_fit_returns_max_witness :
    (¬ calculateTextHeight cexMeasure "HI".toList 10000
        TEXT_FONT_SIZE_MIN ≤ 1) ∧
    calculateOptimalFontSize cexMeasure "HI".toList 10000 1
      TEXT_FONT_SIZE_MAX TEXT_FONT_SIZE_MIN = TEXT_FONT_SIZE_MAX := by
  have hdc : ∀ s t : Int, TEXT_FONT_SIZE_MIN ≤ s → s ≤ t →
      t ≤ TEXT_FONT_SIZE_MAX →
      calculateTextHeight cexMeasure "HI".toList 10000 t ≤ 1 →
      calculateTextHeight cexMeasure "HI".toList 10000 s ≤ 1 := by
    intro s t h1 h2 h3 h4
    rw [cexMeasure_height t 1] at h4
    rw [show TEXT_FONT_SIZE_MIN = (24 : Int) from rfl] at h1
    have ht : (24 : ℚ) ≤ (t : ℚ) := by exact_mod_cast (by omega : (24:Int) ≤ t)
    nlinarith
  have hmin : ¬ calculateTextHeight cexMeasure "HI".toList 10000
      TEXT_FONT_SIZE_MIN ≤ 1 := by
    rw [show TEXT_FONT_SIZE_MIN = (24 : Int) from rfl, cexMeasure_height 24 1]
    norm_num
  exact ⟨hmin, calculateOptimalFontSize_no_fit_returns_max cexMeasure
    "HI".toList 10000 1 hdc hmin⟩

end OCHM
